import Mathlib

/-! Shallow embedding of `doc/utils/maas_checks_util.py` from the rpc-maas
repository: the silent-undefined template value, the recovery-capable YAML
mapping constructor, the undeclared-variable resolution of
`_get_check_details`, the criteria mini-language parser `_get_criteria`,
and the `check_details` driver loop. -/

namespace MaasChecksUtil

/-! ### Python string primitives

Python strings are modelled as `List Char`; the helpers below reproduce the
exact `str` operations the source uses (`find`, slicing with negative
indices, `strip`, `startswith`). -/

/-- The index of the first occurrence of a character, if any. -/
def findIndex (t : Char) : List Char → Option Nat
  | [] => none
  | c :: cs => if c == t then some 0 else (findIndex t cs).map (· + 1)

/-- Python `s.find(t)` for a single character `t`: the index of the first
occurrence, or `-1` when absent. -/
def pyFind (l : List Char) (t : Char) : Int :=
  match findIndex t l with
  | some i => (i : Int)
  | none => -1

/-- Python `s[:j]` for an `Int` stop index `j` (a negative index counts from
the end of the string, clamping at zero). -/
def pySliceTo (l : List Char) (j : Int) : List Char :=
  if 0 ≤ j then l.take j.toNat else l.take (l.length - (-j).toNat)

/-- Python `s[i:]` for an `Int` start index `i` (a negative index counts from
the end of the string, clamping at zero). -/
def pySliceFrom (l : List Char) (i : Int) : List Char :=
  if 0 ≤ i then l.drop i.toNat else l.drop (l.length - (-i).toNat)

/-- Python `s[1:-1]`: drop the first and the last character. -/
def pyTrimEnds (l : List Char) : List Char :=
  (l.take (l.length - 1)).drop 1

/-- The characters Python's `str.strip()` removes. -/
def isPyWs (c : Char) : Bool :=
  c = ' ' || c = '\t' || c = '\n' || c = '\r' || c = '\x0b' || c = '\x0c'

/-- Python `s.strip()`. -/
def pyStrip (l : List Char) : List Char :=
  ((l.dropWhile isPyWs).reverse.dropWhile isPyWs).reverse

/-! ### `SilentUndefined`

The Jinja2 `Undefined` subclass. Each dunder is embedded as a function of
the undefined variable's name (`self._undefined_name`); extra Python
arguments that the source ignores are kept as ignored parameters. -/

/-- `SilentUndefined.__str__`: `"\x7b\x7b %s \x7d\x7d" % self._undefined_name`. -/
def silentUndefinedStr (name : String) : String :=
  "\x7b\x7b " ++ name ++ " \x7d\x7d"

/-- `SilentUndefined._return_name`: `str(self._undefined_name)`, whatever the
arguments are. -/
def silentUndefinedReturnName (name : String) (_args : List String) : String :=
  name

/-- `SilentUndefined.__getitem__`, assigned `_return_name` in the class body. -/
def silentUndefinedGetitem (name : String) (key : String) : String :=
  silentUndefinedReturnName name [key]

/-- `SilentUndefined.__getattr__`, assigned `_return_name` in the class body. -/
def silentUndefinedGetattr (name : String) (attr : String) : String :=
  silentUndefinedReturnName name [attr]

/-- `SilentUndefined.__truediv__`: `"\x7b\x7b %s \x7d\x7d" % self._undefined_name`,
the divisor is ignored. -/
def silentUndefinedTruediv (name : String) (_value : String) : String :=
  "\x7b\x7b " ++ name ++ " \x7d\x7d"

/-! ### `RemappingLoader.construct_mapping`

A pyyaml node tree after composition, and the constructor walk the loader
runs over it. Scalars are constructed to their scanned text (the code path
of interest only handles string-tagged scalars, so every scalar constructs
to its text verbatim); sequences and mappings recurse. -/

/-- A pyyaml node: `ScalarNode` (tag and scanned text), `SequenceNode`
(tag and item nodes), `MappingNode` (tag and key/value node pairs). The
`value` attribute of a scalar is its text; of a sequence, the item list; of
a mapping, the pair list. -/
inductive Node where
  | scalar (tag : String) (value : String)
  | sequence (tag : String) (items : List Node)
  | mapping (tag : String) (pairs : List (Node × Node))

/-- A constructed Python value. A Python `dict` is modelled as its key/value
pair list in insertion order. -/
inductive PyValue where
  | str (s : String)
  | dict (pairs : List (PyValue × PyValue))
  | list (items : List PyValue)

/-- `isinstance(key, collections.Hashable)`: strings are hashable, `dict` and
`list` are not. -/
def PyValue.hashable : PyValue → Bool
  | .str _ => true
  | .dict _ => false
  | .list _ => false

/-- Python `repr` of a string, for strings holding no quote, backslash or
nonprintable character (every tag and scalar text in these documents):
single quotes around the text. -/
def pyReprStr (s : String) : String := "\x27" ++ s ++ "\x27"

mutual

/-- pyyaml `Node.__repr__`: `'%s(tag=%r, value=%s)' % (class name, tag,
repr(value))` — the repr of a scalar quotes its text, the repr of a
collection node formats its node list (or key/value pair list). -/
def nodeRepr : Node → String
  | .scalar tag v =>
    "ScalarNode(tag=" ++ pyReprStr tag ++ ", value=" ++ pyReprStr v ++ ")"
  | .sequence tag items =>
    "SequenceNode(tag=" ++ pyReprStr tag ++ ", value=[" ++ nodeListBody items ++ "])"
  | .mapping tag pairs =>
    "MappingNode(tag=" ++ pyReprStr tag ++ ", value=[" ++ nodePairsBody pairs ++ "])"

/-- The comma-joined reprs of a node list (the inside of Python `repr` of a
list of nodes). -/
def nodeListBody : List Node → String
  | [] => ""
  | [n] => nodeRepr n
  | n :: ns => nodeRepr n ++ ", " ++ nodeListBody ns

/-- The comma-joined reprs of a node-pair list (the inside of Python `repr`
of a list of key/value node tuples). -/
def nodePairsBody : List (Node × Node) → String
  | [] => ""
  | [(k, v)] => "(" ++ nodeRepr k ++ ", " ++ nodeRepr v ++ ")"
  | (k, v) :: ps =>
    "(" ++ nodeRepr k ++ ", " ++ nodeRepr v ++ ")" ++ ", " ++ nodePairsBody ps

end

/-- Python `str(node.value)`: a scalar's `value` is a string and `str`
returns it verbatim; a sequence's or mapping's `value` is a list, whose
`str` is its repr. -/
def nodeValueStr : Node → String
  | .scalar _ v => v
  | .sequence _ items => "[" ++ nodeListBody items ++ "]"
  | .mapping _ pairs => "[" ++ nodePairsBody pairs ++ "]"

/-- `str(key_node.value[0][0].value)` for an offending (unhashable) key
node: the first pair's key of a mapping node, sent through `str` of its
`value` attribute. `none` models the Python error paths: `IndexError` for an
empty mapping node, `TypeError` (`key_node.value[0][0]` subscripts a node)
for a sequence node. -/
def recoveredKeyText : Node → Option String
  | .mapping _ ((k0, _) :: _) => some (nodeValueStr k0)
  | _ => none

mutual

/-- pyyaml `construct_object` under `RemappingLoader`, restricted to the tags
this code path uses: a scalar constructs to its text, a sequence to a
`list`, a mapping through `construct_mapping` below. -/
def constructObject : Node → Option PyValue
  | .scalar _ v => some (.str v)
  | .sequence _ items => (constructSeq items).map .list
  | .mapping _ pairs => (constructMapping pairs).map .dict

/-- The item-wise construction of a sequence node's children. -/
def constructSeq : List Node → Option (List PyValue)
  | [] => some []
  | n :: ns =>
    match constructObject n, constructSeq ns with
    | some v, some vs => some (v :: vs)
    | _, _ => none

/-- `RemappingLoader.construct_mapping` over the node's key/value pairs: each
key is constructed; an unhashable key is replaced by constructing a fresh
string-tagged `ScalarNode` whose value is `'"\x7b\x7b %s \x7d\x7d"' % old_value`,
where `old_value` is `key_node.value[0][0].value` (a string for a scalar
first key, the inner node list for a collection first key — `%s` formats it
through `str`); the value node is constructed normally. -/
def constructMapping : List (Node × Node) → Option (List (PyValue × PyValue))
  | [] => some []
  | (keyNode, valueNode) :: rest =>
    match constructObject keyNode with
    | none => none
    | some key0 =>
      match
        (if key0.hashable then some key0
         else (recoveredKeyText keyNode).map fun t =>
           PyValue.str ("\"\x7b\x7b " ++ t ++ " \x7d\x7d\"")) with
      | none => none
      | some key =>
        match constructObject valueNode, constructMapping rest with
        | some value, some m => some ((key, value) :: m)
        | _, _ => none

end

/-! ### The criteria mini-language parser `_get_criteria`

The module-level regex is `CRITERIA = re.compile("\\(([^()]*|\\([^()]*\\))*\\)")`:
an outer parenthesis pair whose inside is a sequence of paren-free runs and
one-level nested groups. `re.search` returns the leftmost position at which
the pattern matches; at a given opening parenthesis the backtracking match is
deterministic (no alternative of the starred group can consume a closing
parenthesis, and a nested group must close before any further parenthesis),
so it is embedded as the two-state scan below. -/

/-- The scan for the clause regex after an opening parenthesis: `depth1` says
whether a one-level nested group is currently open, `acc` holds the consumed
content in reverse. Returns the content between the outer parentheses
(`match.group(0)[1:-1]`), or `none` when the regex cannot match here (a
second nesting level, or the line ends before the closing parenthesis). -/
def scanClause (depth1 : Bool) (acc : List Char) : List Char → Option (List Char)
  | [] => none
  | c :: rest =>
    if c = ')' then
      if depth1 then scanClause false (c :: acc) rest
      else some acc.reverse
    else if c = '(' then
      if depth1 then none
      else scanClause true (c :: acc) rest
    else scanClause depth1 (c :: acc) rest

/-- `CRITERIA.search(line)` followed by `match.group(0)[1:-1]`: the content of
the leftmost clause of the line, or `none` when the line has no clause. -/
def criteriaSearch : List Char → Option (List Char)
  | [] => none
  | c :: rest =>
    if c = '(' then
      match scanClause false [] rest with
      | some content => some content
      | none => criteriaSearch rest
    else criteriaSearch rest

/-- `status_names = ("CRITICAL", "WARNING", "OK")`. -/
def statusNames : List String := ["CRITICAL", "WARNING", "OK"]

/-- `any([content.startswith(status) for status in status_names])`. -/
def isStatusContent (content : List Char) : Bool :=
  statusNames.any fun s => s.toList.isPrefixOf content

/-- One record yielded by `_get_criteria`. -/
structure CriteriaRecord where
  status : String
  message : String
  condition : String
deriving Repr, DecidableEq

/-- The status-clause branch of `_get_criteria`: split at the first comma
(`content.find(",")`, `-1` when absent), strip the message and drop its outer
characters. -/
def mkStatusRecord (content : List Char) (condition : String) : CriteriaRecord :=
  let comma := pyFind content ','
  let status := pySliceTo content comma
  let message := pyTrimEnds (pyStrip (pySliceFrom content (comma + 1)))
  { status := status.asString, message := message.asString, condition := condition }

/-- Handling of one matched clause content: a status clause yields a record
(the pending condition, or `"default"` when none, is attached and the pending
condition is cleared); any other clause becomes the new pending condition. -/
def processContent (content : List Char) (condition : Option String) :
    Option CriteriaRecord × Option String :=
  if isStatusContent content then
    (some (mkStatusRecord content (condition.getD "default")), none)
  else
    (none, some content.asString)

/-- The line loop of `_get_criteria`, carrying the pending condition. -/
def getCriteriaAux (condition : Option String) : List String → List CriteriaRecord
  | [] => []
  | line :: rest =>
    match criteriaSearch line.toList with
    | none => getCriteriaAux condition rest
    | some content =>
      match processContent content condition with
      | (some r, condition2) => r :: getCriteriaAux condition2 rest
      | (none, condition2) => getCriteriaAux condition2 rest

/-- Python `criteria.split("\n")` on the character list: split at every
newline, keeping empty pieces (so the empty string splits to one empty
piece, as in Python). -/
def splitLines : List Char → List (List Char)
  | [] => [[]]
  | c :: cs =>
    if c = '\n' then [] :: splitLines cs
    else
      match splitLines cs with
      | l :: ls => (c :: l) :: ls
      | [] => [[c]]

/-- `_get_criteria(criteria)`: the yielded records, in order. -/
def getCriteria (criteria : String) : List CriteriaRecord :=
  getCriteriaAux none ((splitLines criteria.toList).map List.asString)

/-- Whether a line holds a clause whose content begins with a status token
(the lines of the loop that yield a record). -/
def isStatusLine (line : String) : Bool :=
  match criteriaSearch line.toList with
  | some content => isStatusContent content
  | none => false

/-! ### `_get_check_details`

`config_variables` is the Python dict of defaults, modelled as a lookup
function; a Python `set` of variable names is modelled as a duplicate-free
list in the enumeration order the runtime happens to produce (that order is
the run-dependent part of the extraction, see the determinism theorem).
A `KeyError` is modelled by an `Option` result. -/

variable {α : Type}

/-- The `config_variables` dictionary: variable name to default value. -/
abbrev ConfigVariables (α : Type) := String → Option α

/-- Python `d[k] = v` on the lookup-function model of `config_variables`. -/
def cvSet (cv : ConfigVariables α) (k : String) (v : α) : ConfigVariables α :=
  fun n => if n = k then some v else cv n

/-- The `ignore` tuple of `_get_check_details`. -/
def ignoreList : List String :=
  ["maas_alarm_local_consecutive_count", "volume_group", "console_service_name"]

/-- The `redirect` dict of `_get_check_details`, in insertion order. -/
def redirectList : List (String × String) :=
  [("warning_threshold", "maas_filesystem_warning_threshold"),
   ("critical_threshold", "maas_filesystem_critical_threshold")]

/-- `for item in ignore: if item in undeclared: undeclared.remove(item)`. -/
def removeIgnored (names : List String) : List String :=
  names.filter fun n => !(ignoreList.contains n)

/-- Python `set.remove` on the duplicate-free list model. -/
def setRemove (names : List String) (x : String) : List String :=
  names.filter fun n => !(n == x)

/-- Python `set.add` on the duplicate-free list model. -/
def setAdd (names : List String) (x : String) : List String :=
  if names.contains x then names else names ++ [x]

/-- One entry of the redirection loop: when `redirect_key` is among the
undeclared names, swap it for `redirect_value` and copy
`config_variables[redirect_value]` into `config_variables[redirect_key]`;
`none` models the `KeyError` when the redirect target has no entry. -/
def applyRedirect (st : ConfigVariables α × List String) (kv : String × String) :
    Option (ConfigVariables α × List String) :=
  if st.2.contains kv.1 then
    match st.1 kv.2 with
    | none => none
    | some v => some (cvSet st.1 kv.1 v, setAdd (setRemove st.2 kv.1) kv.2)
  else some st

/-- `for redirect_key, redirect_value in redirect.items(): ...`. -/
def redirectPhase (cv : ConfigVariables α) (names : List String) :
    Option (ConfigVariables α × List String) :=
  redirectList.foldlM applyRedirect (cv, names)

/-- The comprehension `defaults = dict((key, config_variables[key]) for key in
undeclared)` as a pair list; `none` models the `KeyError` on a missing name. -/
def resolveDefaults (cv : ConfigVariables α) : List String → Option (List (String × α))
  | [] => some []
  | n :: ns =>
    match cv n with
    | none => none
    | some v => (resolveDefaults cv ns).map fun d => (n, v) :: d

/-- Processing of one expression's undeclared-name set in `_get_check_details`:
the ignore-list removal, the redirection loop (which updates
`config_variables`), and the defaults lookup. -/
def processExpression (cv : ConfigVariables α) (undeclared : List String) :
    Option (ConfigVariables α × List (String × α)) :=
  match redirectPhase cv (removeIgnored undeclared) with
  | none => none
  | some (cv2, names) =>
    match resolveDefaults cv2 names with
    | none => none
    | some defaults => some (cv2, defaults)

/-- Python dict assignment `d[k] = v` on the association-list model: overwrite
in place when the key exists, append otherwise. -/
def dictSet {β : Type} (d : List (String × β)) (k : String) (v : β) :
    List (String × β) :=
  if (d.lookup k).isSome then
    d.map fun p => if p.1 = k then (k, v) else p
  else d ++ [(k, v)]

/-- Python `d.update(new)`: assign every pair of `new`, in order. -/
def dictUpdate {β : Type} (d new : List (String × β)) : List (String × β) :=
  new.foldl (fun acc p => dictSet acc p.1 p.2) d

/-- One value of the `details` dict built by `_get_check_details`: the
resolved defaults, plus the reserved `_criteria` key modelled as a separate
optional field. -/
structure DetailsEntry (α : Type) where
  vars : List (String × α)
  criteria : Option (List CriteriaRecord)

/-- `details[key].update(defaults)` when `key` is present, otherwise
`details[key] = defaults`. -/
def detailsStore (details : List (String × DetailsEntry α)) (key : String)
    (defaults : List (String × α)) : List (String × DetailsEntry α) :=
  match details.lookup key with
  | some e => dictSet details key { e with vars := dictUpdate e.vars defaults }
  | none => details ++ [(key, { vars := defaults, criteria := none })]

/-- `details[key]["_criteria"] = recs` (at its call site `key` is always
present; the absent case is kept total by appending). -/
def detailsSetCriteria (details : List (String × DetailsEntry α)) (key : String)
    (recs : List CriteriaRecord) : List (String × DetailsEntry α) :=
  match details.lookup key with
  | some e => dictSet details key { e with criteria := some recs }
  | none => details ++ [(key, { vars := [], criteria := some recs })]

/-- The rendered check document after the source's own extraction steps:
`alarms` holds each alarm's name and its `criteria` template text (the
comprehension over `rendered_yaml["alarms"]`), `details` the check-wide
(key, template text) pairs of `rendered_yaml["details"]`, and `label` the
top-level `label` field. -/
structure RenderedDoc where
  alarms : List (String × String)
  details : List (String × String)
  label : Option String

/-- One iteration of the `_get_check_details` loop over
`itertools.chain(alarms.items(), check_details.items())`. `findUndeclared`
stands for `jinja2.meta.find_undeclared_variables(environment.parse(value))`
(its list order is the Python set's enumeration order) and `renderValue` for
`jinja2.Template(value).render(config_variables)`. -/
def detailsStep (findUndeclared : String → List String)
    (renderValue : String → ConfigVariables α → String)
    (alarmKeys checkDetailKeys : List String)
    (st : ConfigVariables α × List (String × DetailsEntry α))
    (kv : String × String) :
    Option (ConfigVariables α × List (String × DetailsEntry α)) :=
  if kv.1 = "file" ∨ kv.1 = "url" then some st
  else
    match processExpression st.1 (findUndeclared kv.2) with
    | none => none
    | some (cv2, defaults) =>
      let key := if checkDetailKeys.contains kv.1 then "_check_variables" else kv.1
      if checkDetailKeys.contains kv.1 && defaults.isEmpty then some (cv2, st.2)
      else
        let details2 := detailsStore st.2 key defaults
        let details3 :=
          if alarmKeys.contains key then
            detailsSetCriteria details2 key (getCriteria (renderValue kv.2 cv2))
          else details2
        some (cv2, details3)

/-- `_get_check_details(rendered_yaml, config_variables, environment)`: the
`args` detail is dropped, then the chained loop runs over the alarms and the
remaining check-wide details. Returns the mutated `config_variables` next to
the `details` dict. -/
def getCheckDetails (findUndeclared : String → List String)
    (renderValue : String → ConfigVariables α → String)
    (doc : RenderedDoc) (cv : ConfigVariables α) :
    Option (ConfigVariables α × List (String × DetailsEntry α)) :=
  let checkDetails := doc.details.filter fun p => !(p.1 == "args")
  (doc.alarms ++ checkDetails).foldlM
    (detailsStep findUndeclared renderValue (doc.alarms.map Prod.fst)
      (checkDetails.map Prod.fst))
    (cv, [])

/-- One template file as `check_details` consumes it: the filename (for the
static skip list), `template.module.label` when rendering exposed one, and
the partially rendered document. -/
structure TemplateInput where
  filename : String
  moduleLabel : Option String
  doc : RenderedDoc

/-- The loop of `check_details` over the template files: skip the two
filenames of the static skip list, process each document with the shared
(mutable) `config_variables`, and emit `(label, details)` where the label is
`template.module.label` with `rendered_yaml.get("label")` as the
`AttributeError` fallback. -/
def checkDetailsRun (findUndeclared : String → List String)
    (renderValue : String → ConfigVariables α → String)
    (cv : ConfigVariables α) :
    List TemplateInput → Option (List (Option String × List (String × DetailsEntry α)))
  | [] => some []
  | t :: ts =>
    if t.filename = "checks_base.yaml.j2" ∨ t.filename = "ceph_rgw_stats.yaml.j2" then
      checkDetailsRun findUndeclared renderValue cv ts
    else
      match getCheckDetails findUndeclared renderValue t.doc cv with
      | none => none
      | some (cv2, details) =>
        match checkDetailsRun findUndeclared renderValue cv2 ts with
        | none => none
        | some rest => some ((t.moduleLabel <|> t.doc.label, details) :: rest)

/-! ### Equivalence up to inner dictionary order

The only run-to-run nondeterminism in the extraction is the enumeration
order of the Python sets of undeclared names (string hashing is seeded per
process); it can permute the insertion order of each defaults dictionary but
nothing else. Two outputs are equivalent when they agree as sequences of
labelled mappings. -/

/-- Pointwise equality of two dictionaries in the association-list model. -/
def VarsEquiv {β : Type} (d1 d2 : List (String × β)) : Prop :=
  ∀ k, d1.lookup k = d2.lookup k

/-- Equality of two details entries up to inner dictionary order. -/
def EntryEquiv (e1 e2 : DetailsEntry α) : Prop :=
  VarsEquiv e1.vars e2.vars ∧ e1.criteria = e2.criteria

/-- Equality of two details dictionaries up to inner dictionary order: the
same keys in the same order, with entry-equivalent values. -/
def DetailsEquiv (d1 d2 : List (String × DetailsEntry α)) : Prop :=
  List.Forall₂ (fun p q => p.1 = q.1 ∧ EntryEquiv p.2 q.2) d1 d2

/-- Equality of two outputs of `check_details` up to inner dictionary order:
the same labels in the same order, with equivalent details. -/
def OutputEquiv (o1 o2 : List (Option String × List (String × DetailsEntry α))) : Prop :=
  List.Forall₂ (fun p q => p.1 = q.1 ∧ DetailsEquiv p.2 q.2) o1 o2

/-! ### Helper lemmas -/

theorem findIndex_eq_none {t : Char} {l : List Char} (h : t ∉ l) :
    findIndex t l = none := by
  induction l with
  | nil => rfl
  | cons c cs ih =>
    have hct : (c == t) = false := by
      simp only [beq_eq_false_iff_ne, ne_eq]
      rintro rfl
      exact h (List.mem_cons_self c cs)
    simp [findIndex, hct, ih fun hm => h (List.mem_cons_of_mem c hm)]

theorem findIndex_append {t : Char} {l r : List Char} (h : t ∉ l) :
    findIndex t (l ++ t :: r) = some l.length := by
  induction l with
  | nil => simp [findIndex]
  | cons c cs ih =>
    have hct : (c == t) = false := by
      simp only [beq_eq_false_iff_ne, ne_eq]
      rintro rfl
      exact h (List.mem_cons_self c cs)
    simp [findIndex, hct, ih fun hm => h (List.mem_cons_of_mem c hm)]

theorem pyFind_of_not_mem {t : Char} {l : List Char} (h : t ∉ l) :
    pyFind l t = -1 := by
  simp [pyFind, findIndex_eq_none h]

theorem pyFind_append {t : Char} {l r : List Char} (h : t ∉ l) :
    pyFind (l ++ t :: r) t = (l.length : Int) := by
  simp [pyFind, findIndex_append h]

theorem contains_iff_mem {l : List String} {a : String} :
    l.contains a = true ↔ a ∈ l := by
  unfold List.contains
  exact List.elem_iff

theorem scanClause_no_parens {l : List Char} (acc tail : List Char)
    (hl : ∀ c ∈ l, c ≠ '(' ∧ c ≠ ')') :
    scanClause false acc (l ++ ')' :: tail) = some (acc.reverse ++ l) := by
  induction l generalizing acc with
  | nil => simp [scanClause]
  | cons c cs ih =>
    have hc := hl c (List.mem_cons_self c cs)
    simp only [List.cons_append, scanClause, if_neg hc.2, if_neg hc.1]
    show scanClause false (c :: acc) (cs ++ ')' :: tail) = some (acc.reverse ++ c :: cs)
    rw [ih (c :: acc) fun d hd => hl d (List.mem_cons_of_mem c hd)]
    simp

theorem criteriaSearch_clause {u l : List Char} (tail : List Char)
    (hu : ∀ c ∈ u, c ≠ '(' ∧ c ≠ ')') (hl : ∀ c ∈ l, c ≠ '(' ∧ c ≠ ')') :
    criteriaSearch (u ++ '(' :: (l ++ ')' :: tail)) = some l := by
  induction u with
  | nil =>
    simp only [List.nil_append, criteriaSearch, if_pos rfl]
    rw [scanClause_no_parens [] tail hl]
    simp
  | cons c cs ih =>
    have hc := hu c (List.mem_cons_self c cs)
    simp only [List.cons_append, criteriaSearch, if_neg hc.1]
    exact ih fun d hd => hu d (List.mem_cons_of_mem c hd)

theorem mem_setRemove_iff {l : List String} {a x : String} :
    a ∈ setRemove l x ↔ a ∈ l ∧ a ≠ x := by
  simp [setRemove, List.mem_filter]

theorem mem_setAdd_iff {l : List String} {a x : String} :
    a ∈ setAdd l x ↔ a ∈ l ∨ a = x := by
  unfold setAdd
  split
  case isTrue hcon =>
    constructor
    · exact Or.inl
    · rintro (h | rfl)
      · exact h
      · exact contains_iff_mem.mp hcon
  case isFalse hcon => simp

theorem resolveDefaults_eq_none_iff (cv : ConfigVariables α) (l : List String) :
    resolveDefaults cv l = none ↔ ∃ n ∈ l, cv n = none := by
  induction l with
  | nil => simp [resolveDefaults]
  | cons n ns ih =>
    cases h : cv n with
    | none => simp [resolveDefaults, h]
    | some v => simp [resolveDefaults, h, Option.map_eq_none', ih]

theorem resolveDefaults_mem {cv : ConfigVariables α} {l : List String}
    {d : List (String × α)} (h : resolveDefaults cv l = some d) :
    ∀ n ∈ l, ∃ v, cv n = some v ∧ (n, v) ∈ d := by
  induction l generalizing d with
  | nil => simp
  | cons a as ih =>
    cases hc : cv a with
    | none => rw [resolveDefaults, hc] at h; exact absurd h (by simp)
    | some v =>
      rw [resolveDefaults, hc] at h
      cases hr : resolveDefaults cv as with
      | none => rw [hr] at h; exact absurd h (by simp)
      | some d2 =>
        rw [hr] at h
        obtain rfl : (a, v) :: d2 = d := by simpa using h
        intro n hn
        rcases List.mem_cons.mp hn with rfl | hn2
        · exact ⟨v, hc, List.mem_cons_self _ _⟩
        · obtain ⟨w, hw, hmem⟩ := ih hr n hn2
          exact ⟨w, hw, List.mem_cons_of_mem _ hmem⟩

theorem resolveDefaults_keys {cv : ConfigVariables α} {l : List String}
    {d : List (String × α)} (h : resolveDefaults cv l = some d) :
    d.map Prod.fst = l := by
  induction l generalizing d with
  | nil => simpa [resolveDefaults] using h.symm
  | cons a as ih =>
    cases hc : cv a with
    | none => rw [resolveDefaults, hc] at h; exact absurd h (by simp)
    | some v =>
      rw [resolveDefaults, hc] at h
      cases hr : resolveDefaults cv as with
      | none => rw [hr] at h; exact absurd h (by simp)
      | some d2 =>
        rw [hr] at h
        obtain rfl : (a, v) :: d2 = d := by simpa using h
        simp [ih hr]

theorem resolveDefaults_lookup {cv : ConfigVariables α} {l : List String}
    {d : List (String × α)} (h : resolveDefaults cv l = some d) :
    ∀ k, d.lookup k = if k ∈ l then cv k else none := by
  induction l generalizing d with
  | nil =>
    obtain rfl : ([] : List (String × α)) = d := by simpa [resolveDefaults] using h
    simp
  | cons a as ih =>
    cases hc : cv a with
    | none => rw [resolveDefaults, hc] at h; exact absurd h (by simp)
    | some v =>
      rw [resolveDefaults, hc] at h
      cases hr : resolveDefaults cv as with
      | none => rw [hr] at h; exact absurd h (by simp)
      | some d2 =>
        rw [hr] at h
        obtain rfl : (a, v) :: d2 = d := by simpa using h
        intro k
        by_cases hk : k = a
        · subst hk
          simp [List.lookup, hc]
        · have hbeq : (k == a) = false := by simpa using hk
          simp [List.lookup, hbeq, ih hr k, List.mem_cons, hk]

/-! ### Claim C1 -/

/-- C1 counterexample: the claim says that indexing into the undefined value
for the name `foo` yields the literal template-expression text, but the
source's `__getitem__` is `_return_name`, which returns the bare name. -/
theorem c1_counterexample :
    silentUndefinedGetitem "foo" "0" ≠ "\x7b\x7b foo \x7d\x7d" := by decide

/-- C1 (amended): string conversion and division on an undefined name yield
the literal template-expression text, while indexing and attribute access
yield the bare name itself; none of the four operations raises, and for a
nonempty name none of them produces the empty string. -/
theorem c1_silent_undefined_ops (name key attr divisor : String) (h : name ≠ "") :
    silentUndefinedStr name = "\x7b\x7b " ++ name ++ " \x7d\x7d" ∧
    silentUndefinedTruediv name divisor = "\x7b\x7b " ++ name ++ " \x7d\x7d" ∧
    silentUndefinedGetitem name key = name ∧
    silentUndefinedGetattr name attr = name ∧
    silentUndefinedStr name ≠ "" ∧
    silentUndefinedTruediv name divisor ≠ "" ∧
    silentUndefinedGetitem name key ≠ "" ∧
    silentUndefinedGetattr name attr ≠ "" := by
  refine ⟨rfl, rfl, rfl, rfl, ?_, ?_, h, h⟩ <;>
  · intro hc
    simp only [silentUndefinedStr, silentUndefinedTruediv] at hc
    have hlen := congrArg String.length hc
    rw [String.length_append, String.length_append] at hlen
    have h3 : ("\x7b\x7b " : String).length = 3 := rfl
    have h4 : (" \x7d\x7d" : String).length = 3 := rfl
    have h0 : ("" : String).length = 0 := rfl
    omega

/-- Witness for C1 (amended) at the name `foo`. -/
theorem c1_silent_undefined_ops_witness :
    silentUndefinedStr "foo" = "\x7b\x7b foo \x7d\x7d" ∧
    silentUndefinedTruediv "foo" "2" = "\x7b\x7b foo \x7d\x7d" ∧
    silentUndefinedGetitem "foo" "0" = "foo" ∧
    silentUndefinedGetattr "foo" "bar" = "foo" ∧
    silentUndefinedStr "foo" ≠ "" ∧
    silentUndefinedTruediv "foo" "2" ≠ "" ∧
    silentUndefinedGetitem "foo" "0" ≠ "" ∧
    silentUndefinedGetattr "foo" "bar" ≠ "" :=
  c1_silent_undefined_ops "foo" "0" "bar" "2" (by decide)

/-! ### Claim C2 -/

/-- C2 counterexample: a bare `\x7b\x7b private_ssh_port \x7d\x7d:` key line
composes to a doubly-nested mapping key node (the outer flow mapping's
first key is itself a mapping node). The block-level recovery then reads
`key_node.value[0][0].value` — the inner node-pair list — and `%s`-formats
its repr into the new key, so the parse succeeds but the key is the quoted
repr of that list, not the quoted template expression the claim states. -/
theorem c2_counterexample :
    constructMapping
      [(Node.mapping "tag:yaml.org,2002:map"
          [(Node.mapping "tag:yaml.org,2002:map"
              [(Node.scalar "tag:yaml.org,2002:str" "private_ssh_port",
                Node.scalar "tag:yaml.org,2002:null" "")],
            Node.scalar "tag:yaml.org,2002:null" "")],
        Node.scalar "tag:yaml.org,2002:int" "22")] =
      some [(PyValue.str
        ("\"\x7b\x7b [(ScalarNode(tag=\x27tag:yaml.org,2002:str\x27, value=\x27private_ssh_port\x27), ScalarNode(tag=\x27tag:yaml.org,2002:null\x27, value=\x27\x27))] \x7d\x7d\""),
        PyValue.str "22")] ∧
    ("\"\x7b\x7b [(ScalarNode(tag=\x27tag:yaml.org,2002:str\x27, value=\x27private_ssh_port\x27), ScalarNode(tag=\x27tag:yaml.org,2002:null\x27, value=\x27\x27))] \x7d\x7d\"" : String) ≠
      "\"\x7b\x7b private_ssh_port \x7d\x7d\"" :=
  ⟨rfl, by decide⟩

/-- C2 (amended): for an unhashable mapping key, `construct_mapping` retries
with the quoted re-wrap of `str(key_node.value[0][0].value)` and the parse
succeeds, the value constructed normally. The new key is the quoted
template-expression form exactly when the key node's first pair's key is a
scalar (the singly-braced shape, which arises one nesting level down); for
the doubly-nested node a bare `\x7b\x7b name \x7d\x7d:` key line composes
to, that first key is itself a mapping node and the new key is the quoted
repr of its node-pair list instead. -/
theorem c2_construct_mapping_recovery (tag : String) (k0 w : Node)
    (ps : List (Node × Node)) (valueNode : Node)
    (m : List (PyValue × PyValue)) (v : PyValue)
    (hk : constructMapping ((k0, w) :: ps) = some m)
    (hv : constructObject valueNode = some v) :
    constructMapping [(Node.mapping tag ((k0, w) :: ps), valueNode)] =
      some [(PyValue.str ("\"\x7b\x7b " ++ nodeValueStr k0 ++ " \x7d\x7d\""), v)] ∧
    (∀ tg t, nodeValueStr (Node.scalar tg t) = t) ∧
    (∀ tg prs, nodeValueStr (Node.mapping tg prs) = "[" ++ nodePairsBody prs ++ "]") := by
  have h1 : constructObject (Node.mapping tag ((k0, w) :: ps)) =
      some (PyValue.dict m) := by
    simp only [constructObject]
    rw [hk]
    rfl
  refine ⟨?_, fun tg t => rfl, fun tg prs => rfl⟩
  simp [constructMapping, h1, hv, PyValue.hashable, recoveredKeyText]

/-- Witness for C2 (amended) at the doubly-nested key node of a bare
`\x7b\x7b private_ssh_port \x7d\x7d:` line: the recovered key is the quoted
repr of the inner node-pair list. -/
theorem c2_construct_mapping_recovery_witness :
    constructMapping
      [(Node.mapping "tag:yaml.org,2002:map"
          [(Node.mapping "tag:yaml.org,2002:map"
              [(Node.scalar "tag:yaml.org,2002:str" "private_ssh_port",
                Node.scalar "tag:yaml.org,2002:null" "")],
            Node.scalar "tag:yaml.org,2002:null" "")],
        Node.scalar "tag:yaml.org,2002:int" "22")] =
      some [(PyValue.str
        ("\"\x7b\x7b [(ScalarNode(tag=\x27tag:yaml.org,2002:str\x27, value=\x27private_ssh_port\x27), ScalarNode(tag=\x27tag:yaml.org,2002:null\x27, value=\x27\x27))] \x7d\x7d\""),
        PyValue.str "22")] ∧
    (∀ tg t, nodeValueStr (Node.scalar tg t) = t) ∧
    (∀ tg prs, nodeValueStr (Node.mapping tg prs) = "[" ++ nodePairsBody prs ++ "]") :=
  c2_construct_mapping_recovery "tag:yaml.org,2002:map"
    (Node.mapping "tag:yaml.org,2002:map"
      [(Node.scalar "tag:yaml.org,2002:str" "private_ssh_port",
        Node.scalar "tag:yaml.org,2002:null" "")])
    (Node.scalar "tag:yaml.org,2002:null" "") []
    (Node.scalar "tag:yaml.org,2002:int" "22")
    [(PyValue.str "\"\x7b\x7b private_ssh_port \x7d\x7d\"", PyValue.str "")]
    (PyValue.str "22") rfl rfl

/-! ### Claim C4 -/

/-- C4: the three-line ping criteria text parses to exactly two records, the
`OK` record carrying the availability condition and the `CRITICAL` record
carrying the condition `default`. -/
theorem c4_ping_criteria :
    getCriteria ("(metric[\x27available\x27] > 80)\n(OK, \"Ping responds as expected\")\n(CRITICAL, \"Packet loss has occurred\")") =
      [{ status := "OK", message := "Ping responds as expected",
         condition := "metric[\x27available\x27] > 80" },
       { status := "CRITICAL", message := "Packet loss has occurred",
         condition := "default" }] := by decide

/-! ### Claim C9 -/

/-- C9: a clause whose content begins with a status token but holds no comma
still yields a record without raising: `content.find(",")` is `-1`, so the
status is the content minus its final character (`content[:-1]`) and the
message is the whole content, whitespace-stripped, minus its first and last
characters (`content[0:]` stripped, then `[1:-1]`). -/
theorem c9_status_without_comma (line : String) (rest : List String)
    (cond : Option String) (content : List Char)
    (hs : criteriaSearch line.toList = some content)
    (hst : isStatusContent content = true)
    (hnc : ',' ∉ content) :
    getCriteriaAux cond (line :: rest) =
      { status := content.dropLast.asString,
        message := (pyTrimEnds (pyStrip content)).asString,
        condition := cond.getD "default" } :: getCriteriaAux none rest := by
  have hfind : pyFind content ',' = -1 := pyFind_of_not_mem hnc
  have h1 : pySliceTo content (-1) = content.dropLast := by
    rw [pySliceTo, if_neg (by decide), List.dropLast_eq_take]
    norm_num
  have h2 : pySliceFrom content 0 = content := by
    simp [pySliceFrom]
  simp only [getCriteriaAux]
  rw [hs]
  simp [processContent, hst, mkStatusRecord, hfind, h1, h2]

/-- Witness for C9 at the clause `(OK!)`. -/
theorem c9_status_without_comma_witness :
    getCriteriaAux none ["(OK!)"] =
      [{ status := "OK", message := "K", condition := "default" }] :=
  c9_status_without_comma "(OK!)" [] none ['O', 'K', '!'] rfl rfl (by decide)

/-! ### Claim C6 -/

/-- C6 counterexample: for the clause `(OK, hello)` the message after the
comma is `hello`, which is not wrapped in quote characters, yet the parser
stores `ell` — the outer characters are removed unconditionally, so an
unquoted message is not returned intact. -/
theorem c6_counterexample :
    getCriteria "(OK, hello)" =
      [{ status := "OK", message := "ell", condition := "default" }] ∧
    "ell" ≠ "hello" := by decide

/-- C6 (amended): for a status clause, the stored message equals the text
after the first comma, whitespace-stripped and then with its first and last
characters removed unconditionally — this strips the quotes of a quoted
message, but an unquoted message also loses its first and last characters. -/
theorem c6_message_outer_chars (s m : String) (rest : List String)
    (cond : Option String) (hs : s ∈ statusNames)
    (hm : ∀ c ∈ m.toList, c ≠ '(' ∧ c ≠ ')') :
    getCriteriaAux cond (("(" ++ s ++ ", " ++ m ++ ")") :: rest) =
      { status := s,
        message := (pyTrimEnds (pyStrip m.toList)).asString,
        condition := cond.getD "default" } :: getCriteriaAux none rest := by
  have hs3 : s = "CRITICAL" ∨ s = "WARNING" ∨ s = "OK" := by
    simpa [statusNames] using hs
  have hsp : ∀ c ∈ s.toList, c ≠ '(' ∧ c ≠ ')' := by
    rcases hs3 with rfl | rfl | rfl <;> decide
  have hscomma : ',' ∉ s.toList := by
    rcases hs3 with rfl | rfl | rfl <;> decide
  have hline : ("(" ++ s ++ ", " ++ m ++ ")").toList =
      [] ++ '(' :: ((s.toList ++ ',' :: ' ' :: m.toList) ++ ')' :: []) := by
    have hp2 : (", " : String).toList = [',', ' '] := rfl
    simp [String.toList, String.data_append]
  have hcontent : ∀ c ∈ s.toList ++ ',' :: ' ' :: m.toList, c ≠ '(' ∧ c ≠ ')' := by
    intro c hcm
    rcases List.mem_append.mp hcm with h | h
    · exact hsp c h
    · rcases h with _ | ⟨_, h⟩
      · exact ⟨by decide, by decide⟩
      · rcases h with _ | ⟨_, h⟩
        · exact ⟨by decide, by decide⟩
        · exact hm c h
  have hsearch : criteriaSearch ("(" ++ s ++ ", " ++ m ++ ")").toList =
      some (s.toList ++ ',' :: ' ' :: m.toList) := by
    rw [hline]
    exact criteriaSearch_clause [] (by simp) hcontent
  have hstat : isStatusContent (s.toList ++ ',' :: ' ' :: m.toList) = true := by
    refine List.any_eq_true.mpr ⟨s, hs, ?_⟩
    exact (List.isPrefixOf_iff_prefix).mpr (List.prefix_append ..)
  have hfind : pyFind (s.toList ++ ',' :: ' ' :: m.toList) ',' =
      (s.toList.length : Int) := pyFind_append hscomma
  have hstatus : pySliceTo (s.toList ++ ',' :: ' ' :: m.toList) (s.toList.length : Int) =
      s.toList := by
    rw [pySliceTo, if_pos (by positivity)]
    simp
  have hmsg : pySliceFrom (s.toList ++ ',' :: ' ' :: m.toList)
      ((s.toList.length : Int) + 1) = ' ' :: m.toList := by
    rw [pySliceFrom, if_pos (by positivity)]
    have ht : (((s.toList.length : Int)) + 1).toNat = s.toList.length + 1 := by omega
    rw [ht]
    simpa using @List.drop_append Char s.toList (',' :: ' ' :: m.toList) 1
  have hstrip : pyStrip (' ' :: m.toList) = pyStrip m.toList := by
    rw [pyStrip, pyStrip, List.dropWhile_cons_of_pos (by decide)]
  have hstat2 : isStatusContent (s.data ++ ',' :: ' ' :: m.data) = true := hstat
  have hfind2 : pyFind (s.data ++ ',' :: ' ' :: m.data) ',' = (s.length : Int) := hfind
  have hstatus2 : pySliceTo (s.data ++ ',' :: ' ' :: m.data) (s.length : Int) =
      s.data := hstatus
  have hmsg2 : pySliceFrom (s.data ++ ',' :: ' ' :: m.data) ((s.length : Int) + 1) =
      ' ' :: m.data := hmsg
  have hstrip2 : pyStrip (' ' :: m.data) = pyStrip m.data := hstrip
  have hback : s.data.asString = s := String.asString_toList s
  simp only [getCriteriaAux]
  rw [hsearch]
  simp [processContent, hstat2, mkStatusRecord, hfind2,
    hstatus2, hmsg2, hstrip2, hback]

/-- Witness for C6 (amended): a quoted message loses exactly its quotes, the
line `(OK, "msg")` storing the message `msg`. -/
theorem c6_message_outer_chars_witness :
    getCriteriaAux none ["(" ++ "OK" ++ ", " ++ "\"msg\"" ++ ")"] =
      [{ status := "OK", message := "msg", condition := "default" }] :=
  c6_message_outer_chars "OK" "\"msg\"" [] none (by decide) (by decide)

/-! ### Claim C10 -/

/-- C10: only the first (leftmost) clause of a line matters: the search
returns the leftmost clause content, and two lines that agree up to the end
of that first clause are processed identically whatever follows it — extra
clauses later on the line produce neither a record nor a pending condition. -/
theorem c10_first_clause_only (u c tail₁ tail₂ : String) (rest : List String)
    (cond : Option String)
    (hu : ∀ ch ∈ u.toList, ch ≠ '(' ∧ ch ≠ ')')
    (hc : ∀ ch ∈ c.toList, ch ≠ '(' ∧ ch ≠ ')') :
    criteriaSearch (u ++ "(" ++ c ++ ")" ++ tail₁).toList = some c.toList ∧
    getCriteriaAux cond ((u ++ "(" ++ c ++ ")" ++ tail₁) :: rest) =
      getCriteriaAux cond ((u ++ "(" ++ c ++ ")" ++ tail₂) :: rest) := by
  have key : ∀ tl : String,
      criteriaSearch (u ++ "(" ++ c ++ ")" ++ tl).toList = some c.toList := by
    intro tl
    have hline : (u ++ "(" ++ c ++ ")" ++ tl).toList =
        u.toList ++ '(' :: (c.toList ++ ')' :: tl.toList) := by
      simp [String.toList, String.data_append]
    rw [hline]
    exact criteriaSearch_clause tl.toList hu hc
  refine ⟨key tail₁, ?_⟩
  simp only [getCriteriaAux, key tail₁, key tail₂]

/-- Witness for C10: with a second clause present or absent after
`(OK, "m")`, the emitted records agree. -/
theorem c10_first_clause_only_witness :
    criteriaSearch ("" ++ "(" ++ "OK, \"m\"" ++ ")" ++ "(WARNING, \"w\")").toList =
      some ("OK, \"m\"").toList ∧
    getCriteriaAux none [("" ++ "(" ++ "OK, \"m\"" ++ ")" ++ "(WARNING, \"w\")")] =
      getCriteriaAux none [("" ++ "(" ++ "OK, \"m\"" ++ ")" ++ "")] :=
  c10_first_clause_only "" "OK, \"m\"" "(WARNING, \"w\")" "" [] none
    (by decide) (by decide)

/-! ### Claim C5 -/

/-- C5: the pending-condition discipline of the criteria parser. One record
is emitted per status clause, in encounter order (the record count equals the
status-line count); a status clause pairs with the pending condition or with
`default` when none is pending, and the pending condition is reset right
after the emission; a condition clause only replaces the pending condition;
and a trailing condition clause with no following status clause produces no
record. -/
theorem c5_condition_pairing :
    (∀ (cond : Option String) (lines : List String),
      (getCriteriaAux cond lines).length = lines.countP isStatusLine) ∧
    (∀ (cond : Option String) (line : String) (rest : List String)
      (content : List Char), criteriaSearch line.toList = some content →
      isStatusContent content = true →
      getCriteriaAux cond (line :: rest) =
        mkStatusRecord content (cond.getD "default") :: getCriteriaAux none rest) ∧
    (∀ (cond : Option String) (line : String) (rest : List String)
      (content : List Char), criteriaSearch line.toList = some content →
      isStatusContent content = false →
      getCriteriaAux cond (line :: rest) =
        getCriteriaAux (some content.asString) rest) ∧
    (∀ (cond : Option String) (lines : List String) (line : String)
      (content : List Char), criteriaSearch line.toList = some content →
      isStatusContent content = false →
      getCriteriaAux cond (lines ++ [line]) = getCriteriaAux cond lines) := by
  refine ⟨?_, ?_, ?_, ?_⟩
  · intro cond lines
    induction lines generalizing cond with
    | nil => simp [getCriteriaAux]
    | cons l ls ih =>
      rw [List.countP_cons]
      cases h : criteriaSearch l.data with
      | none => simp [getCriteriaAux, h, isStatusLine, ih]
      | some content =>
        cases hst : isStatusContent content with
        | false => simp [getCriteriaAux, h, processContent, hst, isStatusLine, ih]
        | true => simp [getCriteriaAux, h, processContent, hst, isStatusLine, ih]
  · intro cond line rest content h hst
    have h2 : criteriaSearch line.data = some content := h
    simp [getCriteriaAux, h2, processContent, hst]
  · intro cond line rest content h hst
    have h2 : criteriaSearch line.data = some content := h
    simp [getCriteriaAux, h2, processContent, hst]
  · intro cond lines line content h hst
    have h3 : criteriaSearch line.data = some content := h
    induction lines generalizing cond with
    | nil => simp [getCriteriaAux, h3, processContent, hst]
    | cons l ls ih =>
      rw [List.cons_append]
      cases h2 : criteriaSearch l.data with
      | none => simp [getCriteriaAux, h2, ih]
      | some content2 =>
        cases hst2 : isStatusContent content2 with
        | false => simp [getCriteriaAux, h2, processContent, hst2, ih]
        | true => simp [getCriteriaAux, h2, processContent, hst2, ih]

/-! ### Claim C3 -/

/-- C3: after the ignore and redirection steps, every surviving name must be
a key of `config_variables`: if some surviving name has no entry, processing
the expression fails (the `KeyError` of the defaults comprehension, modelled
as `none`); and on success no surviving name is omitted — each appears in
the produced defaults with its value. -/
theorem c3_missing_default_fails (cv : ConfigVariables α) (undeclared : List String)
    (cv2 : ConfigVariables α) (names : List String)
    (hred : redirectPhase cv (removeIgnored undeclared) = some (cv2, names)) :
    ((∃ n ∈ names, cv2 n = none) → processExpression cv undeclared = none) ∧
    (∀ defaults, processExpression cv undeclared = some (cv2, defaults) →
      ∀ n ∈ names, ∃ v, cv2 n = some v ∧ (n, v) ∈ defaults) := by
  constructor
  · intro hex
    simp only [processExpression, hred]
    rw [(resolveDefaults_eq_none_iff cv2 names).mpr hex]
  · intro defaults hp n hn
    simp only [processExpression, hred] at hp
    cases hr : resolveDefaults cv2 names with
    | none => rw [hr] at hp; exact absurd hp (by simp)
    | some d =>
      rw [hr] at hp
      obtain rfl : d = defaults := by simpa using hp
      exact resolveDefaults_mem hr n hn

/-- Witness for C3: the name `y` survives untouched but has no entry, so the
expression's processing fails. -/
theorem c3_missing_default_fails_witness :
    processExpression (fun n => if n = "x" then some (1 : Nat) else none)
      ["x", "y"] = none :=
  (c3_missing_default_fails (fun n => if n = "x" then some (1 : Nat) else none)
    ["x", "y"] (fun n => if n = "x" then some (1 : Nat) else none) ["x", "y"]
    rfl).1 ⟨"y", by simp, rfl⟩

/-- `applyRedirect` with the state pair spelled out. -/
theorem applyRedirect_eq (cv : ConfigVariables α) (n : List String)
    (kv : String × String) :
    applyRedirect (cv, n) kv =
      if n.contains kv.1 then
        match cv kv.2 with
        | none => none
        | some v => some (cvSet cv kv.1 v, setAdd (setRemove n kv.1) kv.2)
      else some (cv, n) := rfl

/-- A successful `applyRedirect` either fired (the redirect key was among the
names, the target had a value, the state was rewritten) or left the state
untouched. -/
theorem applyRedirect_some_cases {cv cv9 : ConfigVariables α} {n n9 : List String}
    {a b : String} (h : applyRedirect (cv, n) (a, b) = some (cv9, n9)) :
    (n.contains a = true ∧ ∃ v, cv b = some v ∧ cv9 = cvSet cv a v ∧
      n9 = setAdd (setRemove n a) b) ∨
    (¬ n.contains a = true ∧ cv9 = cv ∧ n9 = n) := by
  replace h :
      (if n.contains a then
        match cv b with
        | none => none
        | some v => some (cvSet cv a v, setAdd (setRemove n a) b)
      else some (cv, n)) = some (cv9, n9) := h
  by_cases hc : n.contains a = true
  · rw [if_pos hc] at h
    cases hv : cv b with
    | none => rw [hv] at h; exact absurd h (by simp)
    | some v =>
      rw [hv] at h
      obtain ⟨h1, h2⟩ : cvSet cv a v = cv9 ∧ setAdd (setRemove n a) b = n9 := by
        simpa using h
      exact Or.inl ⟨hc, v, rfl, h1.symm, h2.symm⟩
  · rw [if_neg hc] at h
    obtain ⟨h1, h2⟩ : cv = cv9 ∧ n = n9 := by simpa using h
    exact Or.inr ⟨hc, h1.symm, h2.symm⟩

/-- A successful redirection phase decomposes into its two entry steps, the
`warning_threshold` entry first, then the `critical_threshold` entry. -/
theorem redirectPhase_two_steps {cv cv1 : ConfigVariables α} {ns0 names : List String}
    (hred : redirectPhase cv ns0 = some (cv1, names)) :
    ∃ cvm nsm,
      applyRedirect (cv, ns0)
        ("warning_threshold", "maas_filesystem_warning_threshold") = some (cvm, nsm) ∧
      applyRedirect (cvm, nsm)
        ("critical_threshold", "maas_filesystem_critical_threshold") =
        some (cv1, names) := by
  simp only [redirectPhase, redirectList, List.foldlM_cons, List.foldlM_nil] at hred
  rcases h1 : applyRedirect (cv, ns0)
      ("warning_threshold", "maas_filesystem_warning_threshold") with _ | st
  · rw [h1] at hred
    exact absurd hred (by simp)
  · rw [h1] at hred
    obtain ⟨cvm, nsm⟩ := st
    refine ⟨cvm, nsm, rfl, ?_⟩
    simpa using hred

/-! ### Claim C7 -/

/-- C7: whenever a redirected parameter name — `warning_threshold` or
`critical_threshold` — occurs among an expression's free variables, the
produced defaults carry the corresponding redirect target's name as a key
and never the original name, and `config_variables` is updated so the
original name maps to the redirect target's value. -/
theorem c7_redirect_swaps_name (cv : ConfigVariables α) (undeclared : List String)
    (cv2 : ConfigVariables α) (defaults : List (String × α)) (rk rv : String)
    (hkv : (rk, rv) ∈ redirectList) (hmem : rk ∈ undeclared)
    (h : processExpression cv undeclared = some (cv2, defaults)) :
    rv ∈ defaults.map Prod.fst ∧ rk ∉ defaults.map Prod.fst ∧ cv2 rk = cv rv := by
  rcases hred : redirectPhase cv (removeIgnored undeclared) with _ | ⟨cv1, names⟩
  · simp [processExpression, hred] at h
  simp only [processExpression, hred] at h
  rcases hres : resolveDefaults cv1 names with _ | d
  · rw [hres] at h; exact absurd h (by simp)
  rw [hres] at h
  obtain ⟨h1, h2⟩ : cv1 = cv2 ∧ d = defaults := by simpa using h
  subst h1
  subst h2
  rw [resolveDefaults_keys hres]
  obtain ⟨cvm, nsm, hstep1, hstep2⟩ := redirectPhase_two_steps hred
  have hrk2 : (rk = "warning_threshold" ∧ rv = "maas_filesystem_warning_threshold") ∨
      (rk = "critical_threshold" ∧ rv = "maas_filesystem_critical_threshold") := by
    simpa [redirectList] using hkv
  have hmem0 : rk ∈ removeIgnored undeclared := by
    rcases hrk2 with ⟨rfl, h9⟩ | ⟨rfl, h9⟩ <;>
      exact List.mem_filter.mpr ⟨hmem, by decide⟩
  rcases applyRedirect_some_cases hstep1 with ⟨hc1, w, hw, hcvm, hnsm⟩ |
    ⟨hc1, hcvm, hnsm⟩
  · rcases applyRedirect_some_cases hstep2 with ⟨hc2, u, hu, hcv1, hnames⟩ |
      ⟨hc2, hcv1, hnames⟩
    · -- both redirect entries fired
      subst hcvm
      subst hnsm
      subst hcv1
      subst hnames
      have hu2 : cv "maas_filesystem_critical_threshold" = some u := by
        rw [← hu]
        simp [cvSet]
      rcases hrk2 with ⟨rfl, rfl⟩ | ⟨rfl, rfl⟩
      · refine ⟨?_, ?_, ?_⟩
        · exact mem_setAdd_iff.mpr (Or.inl (mem_setRemove_iff.mpr
            ⟨mem_setAdd_iff.mpr (Or.inr rfl), by decide⟩))
        · intro hcon
          rcases mem_setAdd_iff.mp hcon with h3 | h3
          · rcases mem_setAdd_iff.mp (mem_setRemove_iff.mp h3).1 with h4 | h4
            · exact (mem_setRemove_iff.mp h4).2 rfl
            · exact absurd h4 (by decide)
          · exact absurd h3 (by decide)
        · simp [cvSet, hw]
      · refine ⟨?_, ?_, ?_⟩
        · exact mem_setAdd_iff.mpr (Or.inr rfl)
        · intro hcon
          rcases mem_setAdd_iff.mp hcon with h3 | h3
          · exact (mem_setRemove_iff.mp h3).2 rfl
          · exact absurd h3 (by decide)
        · simp [cvSet, hu2]
    · -- only the warning entry fired
      subst hcvm
      subst hnsm
      subst hcv1
      subst hnames
      rcases hrk2 with ⟨rfl, rfl⟩ | ⟨rfl, rfl⟩
      · refine ⟨mem_setAdd_iff.mpr (Or.inr rfl), ?_, ?_⟩
        · intro hcon
          rcases mem_setAdd_iff.mp hcon with h3 | h3
          · exact (mem_setRemove_iff.mp h3).2 rfl
          · exact absurd h3 (by decide)
        · simp [cvSet, hw]
      · exfalso
        refine hc2 (contains_iff_mem.mpr ?_)
        exact mem_setAdd_iff.mpr (Or.inl (mem_setRemove_iff.mpr ⟨hmem0, by decide⟩))
  · rcases applyRedirect_some_cases hstep2 with ⟨hc2, u, hu, hcv1, hnames⟩ |
      ⟨hc2, hcv1, hnames⟩
    · -- only the critical entry fired
      subst hcvm
      subst hnsm
      subst hcv1
      subst hnames
      rcases hrk2 with ⟨rfl, rfl⟩ | ⟨rfl, rfl⟩
      · exact absurd (contains_iff_mem.mpr hmem0) hc1
      · refine ⟨mem_setAdd_iff.mpr (Or.inr rfl), ?_, ?_⟩
        · intro hcon
          rcases mem_setAdd_iff.mp hcon with h3 | h3
          · exact (mem_setRemove_iff.mp h3).2 rfl
          · exact absurd h3 (by decide)
        · simp [cvSet, hu]
    · -- neither entry fired
      subst hcvm
      subst hnsm
      subst hcv1
      subst hnames
      rcases hrk2 with ⟨rfl, rfl⟩ | ⟨rfl, rfl⟩
      · exact absurd (contains_iff_mem.mpr hmem0) hc1
      · exact absurd (contains_iff_mem.mpr hmem0) hc2

/-- Witness for C7 at `critical_threshold` as the only free variable, with
the filesystem target configured at `90`. -/
theorem c7_redirect_swaps_name_witness :
    "maas_filesystem_critical_threshold" ∈
      ([("maas_filesystem_critical_threshold", (90 : Nat))].map Prod.fst) ∧
    "critical_threshold" ∉
      ([("maas_filesystem_critical_threshold", (90 : Nat))].map Prod.fst) ∧
    cvSet (fun n => if n = "maas_filesystem_critical_threshold"
        then some (90 : Nat) else none) "critical_threshold" 90 "critical_threshold" =
      (fun n => if n = "maas_filesystem_critical_threshold"
        then some (90 : Nat) else none) "maas_filesystem_critical_threshold" :=
  c7_redirect_swaps_name
    (fun n => if n = "maas_filesystem_critical_threshold"
      then some (90 : Nat) else none)
    ["critical_threshold"]
    (cvSet (fun n => if n = "maas_filesystem_critical_threshold"
      then some (90 : Nat) else none) "critical_threshold" 90)
    [("maas_filesystem_critical_threshold", (90 : Nat))]
    "critical_threshold" "maas_filesystem_critical_threshold"
    (by decide) (by simp) rfl

/-! ### Determinism helpers: the redirection phase under a permuted set order -/

theorem setAdd_perm {l1 l2 : List String} (h : l1.Perm l2) (x : String) :
    (setAdd l1 x).Perm (setAdd l2 x) := by
  unfold setAdd
  by_cases hc : l1.contains x = true
  · have hc2 : l2.contains x = true :=
      contains_iff_mem.mpr (h.mem_iff.mp (contains_iff_mem.mp hc))
    rw [if_pos hc, if_pos hc2]
    exact h
  · have hc2 : ¬ l2.contains x = true := fun hcon =>
      hc (contains_iff_mem.mpr (h.mem_iff.mpr (contains_iff_mem.mp hcon)))
    rw [if_neg hc, if_neg hc2]
    exact h.append_right [x]

theorem setAdd_nodup {l : List String} (h : l.Nodup) (x : String) :
    (setAdd l x).Nodup := by
  unfold setAdd
  split
  case isTrue hc => exact h
  case isFalse hc =>
    refine List.nodup_append.mpr ⟨h, List.nodup_singleton x, ?_⟩
    intro a ha hb
    rw [List.mem_singleton] at hb
    subst hb
    exact hc (contains_iff_mem.mpr ha)

theorem applyRedirect_congr (cv : ConfigVariables α) {n1 n2 : List String}
    (kv : String × String) (hp : n1.Perm n2) (hd : n1.Nodup) :
    (applyRedirect (cv, n1) kv = none ∧ applyRedirect (cv, n2) kv = none) ∨
    (∃ cv3 m1 m2, applyRedirect (cv, n1) kv = some (cv3, m1) ∧
      applyRedirect (cv, n2) kv = some (cv3, m2) ∧ m1.Perm m2 ∧ m1.Nodup) := by
  by_cases hc : n1.contains kv.1 = true
  · have hc2 : n2.contains kv.1 = true :=
      contains_iff_mem.mpr (hp.mem_iff.mp (contains_iff_mem.mp hc))
    cases hv : cv kv.2 with
    | none =>
      left
      refine ⟨?_, ?_⟩
      · rw [applyRedirect_eq, if_pos hc, hv]
      · rw [applyRedirect_eq, if_pos hc2, hv]
    | some v =>
      right
      refine ⟨cvSet cv kv.1 v, setAdd (setRemove n1 kv.1) kv.2,
        setAdd (setRemove n2 kv.1) kv.2, ?_, ?_, ?_, ?_⟩
      · rw [applyRedirect_eq, if_pos hc, hv]
      · rw [applyRedirect_eq, if_pos hc2, hv]
      · exact setAdd_perm (hp.filter _) kv.2
      · exact setAdd_nodup (hd.filter _) kv.2
  · have hc2 : ¬ n2.contains kv.1 = true := fun hcon =>
      hc (contains_iff_mem.mpr (hp.mem_iff.mpr (contains_iff_mem.mp hcon)))
    right
    exact ⟨cv, n1, n2, by rw [applyRedirect_eq, if_neg hc],
      by rw [applyRedirect_eq, if_neg hc2], hp, hd⟩

theorem redirectFold_congr (kvs : List (String × String)) (cv : ConfigVariables α)
    {n1 n2 : List String} (hp : n1.Perm n2) (hd : n1.Nodup) :
    (kvs.foldlM applyRedirect (cv, n1) = none ∧
     kvs.foldlM applyRedirect (cv, n2) = none) ∨
    (∃ cv3 m1 m2, kvs.foldlM applyRedirect (cv, n1) = some (cv3, m1) ∧
      kvs.foldlM applyRedirect (cv, n2) = some (cv3, m2) ∧ m1.Perm m2 ∧ m1.Nodup) := by
  induction kvs generalizing cv n1 n2 with
  | nil => exact Or.inr ⟨cv, n1, n2, rfl, rfl, hp, hd⟩
  | cons kv kvs ih =>
    rw [List.foldlM_cons, List.foldlM_cons]
    rcases applyRedirect_congr cv kv hp hd with ⟨e1, e2⟩ |
      ⟨cv3, m1, m2, e1, e2, hp2, hd2⟩
    · left
      rw [e1, e2]
      exact ⟨rfl, rfl⟩
    · rw [e1, e2]
      simpa using ih cv3 hp2 hd2

theorem lookup_cons {β : Type} (q a : String) (b : β) (es : List (String × β)) :
    List.lookup q ((a, b) :: es) = if q = a then some b else List.lookup q es := by
  by_cases h : q = a
  · simp [List.lookup, h]
  · have hb : (q == a) = false := by simpa using h
    simp [List.lookup, hb, h]

theorem lookup_append {β : Type} (d e : List (String × β)) (q : String) :
    List.lookup q (d ++ e) =
      match List.lookup q d with
      | some v => some v
      | none => List.lookup q e := by
  induction d with
  | nil => simp
  | cons p rest ih =>
    obtain ⟨a, b⟩ := p
    by_cases h : q = a <;> simp [lookup_cons, h, ih]

theorem lookup_eq_none_iff {β : Type} (d : List (String × β)) (q : String) :
    List.lookup q d = none ↔ q ∉ d.map Prod.fst := by
  induction d with
  | nil => simp
  | cons p rest ih =>
    obtain ⟨a, b⟩ := p
    by_cases h : q = a <;> simp [lookup_cons, h, ih]

theorem lookup_map_overwrite {β : Type} (d : List (String × β)) (k : String) (v : β)
    (q : String) :
    List.lookup q (d.map fun p => if p.1 = k then (k, v) else p) =
      if q = k then (if (List.lookup k d).isSome then some v else none)
      else List.lookup q d := by
  induction d with
  | nil => simp
  | cons p rest ih =>
    obtain ⟨a, b⟩ := p
    by_cases hak : a = k
    · subst hak
      by_cases hqk : q = a
      · subst hqk
        simp [lookup_cons]
      · simp [lookup_cons, hqk, ih]
    · have hka : k ≠ a := fun hh => hak hh.symm
      by_cases hqa : q = a
      · subst hqa
        have hqk : q ≠ k := fun hh => hka (hh.symm)
        simp [lookup_cons, hak, hqk]
      · rw [lookup_cons k a b rest, if_neg hka]
        simp [lookup_cons, hak, hqa, ih]

theorem dictSet_lookup {β : Type} (d : List (String × β)) (k : String) (v : β)
    (q : String) :
    List.lookup q (dictSet d k v) = if q = k then some v else List.lookup q d := by
  unfold dictSet
  split
  case isTrue hsome =>
    rw [lookup_map_overwrite]
    by_cases hqk : q = k
    · simp [hqk, hsome]
    · simp [hqk]
  case isFalse hsome =>
    rw [lookup_append]
    by_cases hqk : q = k
    · subst hqk
      have hnone : List.lookup q d = none := by
        cases hv2 : List.lookup q d with
        | none => rfl
        | some w => exact absurd (by simp [hv2]) hsome
      simp [hnone, lookup_cons]
    · cases hv2 : List.lookup q d <;> simp [hv2, lookup_cons, hqk]

theorem dictUpdate_lookup {β : Type} (d new : List (String × β))
    (hnd : (new.map Prod.fst).Nodup) (q : String) :
    List.lookup q (dictUpdate d new) =
      match List.lookup q new with
      | some v => some v
      | none => List.lookup q d := by
  induction new generalizing d with
  | nil => simp [dictUpdate]
  | cons p rest ih =>
    obtain ⟨a, b⟩ := p
    have hstep : dictUpdate d ((a, b) :: rest) = dictUpdate (dictSet d a b) rest := rfl
    rw [List.map_cons, List.nodup_cons] at hnd
    rw [hstep, ih _ hnd.2]
    by_cases hqa : q = a
    · subst hqa
      have hr0 : List.lookup q rest = none := (lookup_eq_none_iff rest q).mpr hnd.1
      simp [hr0, lookup_cons, dictSet_lookup]
    · cases hr : List.lookup q rest <;> simp [hr, lookup_cons, hqa, dictSet_lookup]

theorem processExpression_congr (cv : ConfigVariables α) {u1 u2 : List String}
    (hp : u1.Perm u2) (hd : u1.Nodup) :
    (processExpression cv u1 = none ∧ processExpression cv u2 = none) ∨
    (∃ cv3 d1 d2, processExpression cv u1 = some (cv3, d1) ∧
      processExpression cv u2 = some (cv3, d2) ∧ VarsEquiv d1 d2 ∧
      (d1.map Prod.fst).Nodup ∧ (d2.map Prod.fst).Nodup ∧
      d1.isEmpty = d2.isEmpty) := by
  have hpr : (removeIgnored u1).Perm (removeIgnored u2) := hp.filter _
  have hdr : (removeIgnored u1).Nodup := hd.filter _
  rcases redirectFold_congr redirectList cv hpr hdr with ⟨e1, e2⟩ |
    ⟨cv3, m1, m2, e1, e2, hp2, hd2⟩
  · left
    constructor <;> simp [processExpression, redirectPhase, e1, e2]
  · have hd2b : m2.Nodup := hp2.nodup_iff.mp hd2
    rcases hr1 : resolveDefaults cv3 m1 with _ | d1
    · have hr2 : resolveDefaults cv3 m2 = none := by
        rw [resolveDefaults_eq_none_iff] at hr1 ⊢
        obtain ⟨n, hn, hnone⟩ := hr1
        exact ⟨n, hp2.mem_iff.mp hn, hnone⟩
      left
      constructor <;> simp [processExpression, redirectPhase, e1, e2, hr1, hr2]
    · rcases hr2 : resolveDefaults cv3 m2 with _ | d2
      · exfalso
        rw [resolveDefaults_eq_none_iff] at hr2
        obtain ⟨n, hn, hnone⟩ := hr2
        have hcontra : resolveDefaults cv3 m1 = none :=
          (resolveDefaults_eq_none_iff _ _).mpr ⟨n, hp2.mem_iff.mpr hn, hnone⟩
        rw [hr1] at hcontra
        exact Option.noConfusion hcontra
      · right
        refine ⟨cv3, d1, d2, ?_, ?_, ?_, ?_, ?_, ?_⟩
        · simp [processExpression, redirectPhase, e1, hr1]
        · simp [processExpression, redirectPhase, e2, hr2]
        · intro q
          rw [resolveDefaults_lookup hr1 q, resolveDefaults_lookup hr2 q]
          by_cases hq : q ∈ m1
          · rw [if_pos hq, if_pos (hp2.mem_iff.mp hq)]
          · rw [if_neg hq, if_neg fun hh => hq (hp2.mem_iff.mpr hh)]
        · rw [resolveDefaults_keys hr1]; exact hd2
        · rw [resolveDefaults_keys hr2]; exact hd2b
        · have l1 : d1.length = m1.length := by
            have hh := congrArg List.length (resolveDefaults_keys hr1)
            simpa using hh
          have l2 : d2.length = m2.length := by
            have hh := congrArg List.length (resolveDefaults_keys hr2)
            simpa using hh
          have l3 : m1.length = m2.length := hp2.length_eq
          cases d1 <;> cases d2 <;> simp_all <;> omega

theorem detailsEquiv_lookup {d1 d2 : List (String × DetailsEntry α)}
    (h : DetailsEquiv d1 d2) (k : String) :
    (List.lookup k d1 = none ∧ List.lookup k d2 = none) ∨
    (∃ e1 e2, List.lookup k d1 = some e1 ∧ List.lookup k d2 = some e2 ∧
      EntryEquiv e1 e2) := by
  induction h with
  | nil => exact Or.inl ⟨rfl, rfl⟩
  | @cons p q l1 l2 hpq htail ih =>
    obtain ⟨a, e⟩ := p
    obtain ⟨b, f⟩ := q
    obtain ⟨hab, hef⟩ := hpq
    simp only at hab
    subst hab
    by_cases hk : k = a
    · exact Or.inr ⟨e, f, by rw [lookup_cons, if_pos hk],
        by rw [lookup_cons, if_pos hk], hef⟩
    · rcases ih with ⟨h1, h2⟩ | ⟨e1, e2, h1, h2, h3⟩
      · exact Or.inl ⟨by rw [lookup_cons, if_neg hk, h1],
          by rw [lookup_cons, if_neg hk, h2]⟩
      · exact Or.inr ⟨e1, e2, by rw [lookup_cons, if_neg hk, h1],
          by rw [lookup_cons, if_neg hk, h2], h3⟩

theorem dictSet_details_congr {d1 d2 : List (String × DetailsEntry α)}
    (h : DetailsEquiv d1 d2) (k : String) {e1 e2 : DetailsEntry α}
    (he : EntryEquiv e1 e2) :
    DetailsEquiv (dictSet d1 k e1) (dictSet d2 k e2) := by
  unfold dictSet
  have hiff : (List.lookup k d1).isSome = (List.lookup k d2).isSome := by
    rcases detailsEquiv_lookup h k with ⟨h1, h2⟩ | ⟨a, b, h1, h2, _⟩ <;> simp [h1, h2]
  by_cases hsome : (List.lookup k d1).isSome = true
  · rw [if_pos hsome, if_pos (hiff ▸ hsome)]
    clear hiff hsome
    induction h with
    | nil => exact List.Forall₂.nil
    | @cons p q l1 l2 hpq htail ih =>
      simp only [List.map_cons]
      refine List.Forall₂.cons ?_ ih
      by_cases hpk : p.1 = k
      · rw [if_pos hpk, if_pos (hpq.1.symm.trans hpk)]
        exact ⟨rfl, he⟩
      · rw [if_neg hpk, if_neg fun hh => hpk (hpq.1.trans hh)]
        exact hpq
  · rw [if_neg hsome, if_neg (by rw [← hiff]; exact hsome)]
    exact List.rel_append h (List.Forall₂.cons ⟨rfl, he⟩ List.Forall₂.nil)

theorem detailsStore_congr {d1 d2 : List (String × DetailsEntry α)}
    (h : DetailsEquiv d1 d2) (key : String) {n1 n2 : List (String × α)}
    (hv : VarsEquiv n1 n2) (hnd1 : (n1.map Prod.fst).Nodup)
    (hnd2 : (n2.map Prod.fst).Nodup) :
    DetailsEquiv (detailsStore d1 key n1) (detailsStore d2 key n2) := by
  unfold detailsStore
  rcases detailsEquiv_lookup h key with ⟨h1, h2⟩ | ⟨a, b, h1, h2, hab⟩
  · rw [h1, h2]
    exact List.rel_append h (List.Forall₂.cons ⟨rfl, hv, rfl⟩ List.Forall₂.nil)
  · rw [h1, h2]
    refine dictSet_details_congr h key ⟨?_, hab.2⟩
    intro q
    rw [dictUpdate_lookup _ _ hnd1 q, dictUpdate_lookup _ _ hnd2 q, hv q]
    cases List.lookup q n2 with
    | none => exact hab.1 q
    | some w => rfl

theorem detailsSetCriteria_congr {d1 d2 : List (String × DetailsEntry α)}
    (h : DetailsEquiv d1 d2) (key : String) (recs : List CriteriaRecord) :
    DetailsEquiv (detailsSetCriteria d1 key recs) (detailsSetCriteria d2 key recs) := by
  unfold detailsSetCriteria
  rcases detailsEquiv_lookup h key with ⟨h1, h2⟩ | ⟨a, b, h1, h2, hab⟩
  · rw [h1, h2]
    exact List.rel_append h
      (List.Forall₂.cons ⟨rfl, fun q => rfl, rfl⟩ List.Forall₂.nil)
  · rw [h1, h2]
    exact dictSet_details_congr h key ⟨hab.1, rfl⟩

/-- `detailsStep` with the state pair spelled out. -/
theorem detailsStep_eq (f : String → List String)
    (renderValue : String → ConfigVariables α → String)
    (alarmKeys checkDetailKeys : List String) (cv : ConfigVariables α)
    (dt : List (String × DetailsEntry α)) (kv : String × String) :
    detailsStep f renderValue alarmKeys checkDetailKeys (cv, dt) kv =
      if kv.1 = "file" ∨ kv.1 = "url" then some (cv, dt)
      else
        match processExpression cv (f kv.2) with
        | none => none
        | some (cv2, defaults) =>
          let key := if checkDetailKeys.contains kv.1 then "_check_variables" else kv.1
          if checkDetailKeys.contains kv.1 && defaults.isEmpty then some (cv2, dt)
          else
            let details2 := detailsStore dt key defaults
            let details3 :=
              if alarmKeys.contains key then
                detailsSetCriteria details2 key (getCriteria (renderValue kv.2 cv2))
              else details2
            some (cv2, details3) := rfl

theorem detailsStep_congr (f1 f2 : String → List String)
    (hperm : ∀ t, (f1 t).Perm (f2 t)) (hnd : ∀ t, (f1 t).Nodup)
    (renderValue : String → ConfigVariables α → String)
    (alarmKeys checkDetailKeys : List String) (cv : ConfigVariables α)
    {dt1 dt2 : List (String × DetailsEntry α)} (hdt : DetailsEquiv dt1 dt2)
    (kv : String × String) :
    (detailsStep f1 renderValue alarmKeys checkDetailKeys (cv, dt1) kv = none ∧
     detailsStep f2 renderValue alarmKeys checkDetailKeys (cv, dt2) kv = none) ∨
    (∃ cv3 e1 e2,
      detailsStep f1 renderValue alarmKeys checkDetailKeys (cv, dt1) kv =
        some (cv3, e1) ∧
      detailsStep f2 renderValue alarmKeys checkDetailKeys (cv, dt2) kv =
        some (cv3, e2) ∧
      DetailsEquiv e1 e2) := by
  rw [detailsStep_eq, detailsStep_eq]
  by_cases hfu : kv.1 = "file" ∨ kv.1 = "url"
  · rw [if_pos hfu, if_pos hfu]
    exact Or.inr ⟨cv, dt1, dt2, rfl, rfl, hdt⟩
  · rw [if_neg hfu, if_neg hfu]
    rcases processExpression_congr cv (hperm kv.2) (hnd kv.2) with ⟨e1, e2⟩ |
      ⟨cv3, dd1, dd2, e1, e2, hvv, hn1, hn2, hemp⟩
    · rw [e1, e2]
      exact Or.inl ⟨rfl, rfl⟩
    · simp only [e1, e2]
      have hcond : (checkDetailKeys.contains kv.1 && dd2.isEmpty) =
          (checkDetailKeys.contains kv.1 && dd1.isEmpty) := by rw [hemp]
      rw [hcond]
      by_cases hskip : (checkDetailKeys.contains kv.1 && dd1.isEmpty) = true
      · rw [if_pos hskip, if_pos hskip]
        exact Or.inr ⟨cv3, dt1, dt2, rfl, rfl, hdt⟩
      · rw [if_neg hskip, if_neg hskip]
        have hstore := detailsStore_congr hdt
          (if checkDetailKeys.contains kv.1 then "_check_variables" else kv.1)
          hvv hn1 hn2
        by_cases halarm : alarmKeys.contains
            (if checkDetailKeys.contains kv.1 then "_check_variables" else kv.1) = true
        · rw [if_pos halarm, if_pos halarm]
          exact Or.inr ⟨cv3, _, _, rfl, rfl, detailsSetCriteria_congr hstore _ _⟩
        · rw [if_neg halarm, if_neg halarm]
          exact Or.inr ⟨cv3, _, _, rfl, rfl, hstore⟩

theorem detailsFold_congr (items : List (String × String))
    (f1 f2 : String → List String)
    (hperm : ∀ t, (f1 t).Perm (f2 t)) (hnd : ∀ t, (f1 t).Nodup)
    (renderValue : String → ConfigVariables α → String)
    (alarmKeys checkDetailKeys : List String) (cv : ConfigVariables α)
    {dt1 dt2 : List (String × DetailsEntry α)} (hdt : DetailsEquiv dt1 dt2) :
    (items.foldlM (detailsStep f1 renderValue alarmKeys checkDetailKeys) (cv, dt1) =
       none ∧
     items.foldlM (detailsStep f2 renderValue alarmKeys checkDetailKeys) (cv, dt2) =
       none) ∨
    (∃ cv3 e1 e2,
      items.foldlM (detailsStep f1 renderValue alarmKeys checkDetailKeys) (cv, dt1) =
        some (cv3, e1) ∧
      items.foldlM (detailsStep f2 renderValue alarmKeys checkDetailKeys) (cv, dt2) =
        some (cv3, e2) ∧
      DetailsEquiv e1 e2) := by
  induction items generalizing cv dt1 dt2 with
  | nil => exact Or.inr ⟨cv, dt1, dt2, rfl, rfl, hdt⟩
  | cons kv rest ih =>
    rw [List.foldlM_cons, List.foldlM_cons]
    rcases detailsStep_congr f1 f2 hperm hnd renderValue alarmKeys checkDetailKeys
      cv hdt kv with ⟨e1, e2⟩ | ⟨cv3, g1, g2, e1, e2, hg⟩
    · left
      rw [e1, e2]
      exact ⟨rfl, rfl⟩
    · rw [e1, e2]
      simpa using ih cv3 hg

theorem getCheckDetails_congr (f1 f2 : String → List String)
    (hperm : ∀ t, (f1 t).Perm (f2 t)) (hnd : ∀ t, (f1 t).Nodup)
    (renderValue : String → ConfigVariables α → String)
    (doc : RenderedDoc) (cv : ConfigVariables α) :
    (getCheckDetails f1 renderValue doc cv = none ∧
     getCheckDetails f2 renderValue doc cv = none) ∨
    (∃ cv3 e1 e2, getCheckDetails f1 renderValue doc cv = some (cv3, e1) ∧
      getCheckDetails f2 renderValue doc cv = some (cv3, e2) ∧
      DetailsEquiv e1 e2) := by
  unfold getCheckDetails
  exact detailsFold_congr _ f1 f2 hperm hnd renderValue _ _ cv List.Forall₂.nil

theorem checkDetailsRun_congr (f1 f2 : String → List String)
    (hperm : ∀ t, (f1 t).Perm (f2 t)) (hnd : ∀ t, (f1 t).Nodup)
    (renderValue : String → ConfigVariables α → String)
    (templates : List TemplateInput) (cv : ConfigVariables α) :
    (checkDetailsRun f1 renderValue cv templates = none ∧
     checkDetailsRun f2 renderValue cv templates = none) ∨
    (∃ o1 o2, checkDetailsRun f1 renderValue cv templates = some o1 ∧
      checkDetailsRun f2 renderValue cv templates = some o2 ∧ OutputEquiv o1 o2) := by
  induction templates generalizing cv with
  | nil => exact Or.inr ⟨[], [], rfl, rfl, List.Forall₂.nil⟩
  | cons t ts ih =>
    by_cases hskip : t.filename = "checks_base.yaml.j2" ∨
        t.filename = "ceph_rgw_stats.yaml.j2"
    · simp only [checkDetailsRun, if_pos hskip]
      exact ih cv
    · simp only [checkDetailsRun, if_neg hskip]
      rcases getCheckDetails_congr f1 f2 hperm hnd renderValue t.doc cv with
        ⟨e1, e2⟩ | ⟨cv3, d1, d2, e1, e2, hd⟩
      · rw [e1, e2]
        exact Or.inl ⟨rfl, rfl⟩
      · simp only [e1, e2]
        rcases ih cv3 with ⟨r1, r2⟩ | ⟨o1, o2, r1, r2, ho⟩
        · rw [r1, r2]
          exact Or.inl ⟨rfl, rfl⟩
        · simp only [r1, r2]
          exact Or.inr ⟨_, _, rfl, rfl, List.Forall₂.cons ⟨rfl, hd⟩ ho⟩

/-! ### Claim C8 -/

/-- C8: the extraction is a deterministic function of its input files. In
the embedding all of `check_details` is a pure function of the directory
contents, so one run equals a rerun definitionally; the one run-to-run
degree of freedom the runtime introduces — the enumeration order of each
Python set of undeclared names — does not change the outcome: for any two
enumeration-order choices that are permutations of each other, the two runs
fail identically or produce the same sequence of (label, details) pairs,
with every dictionary equal as a mapping. -/
theorem c8_extraction_deterministic
    (renderValue : String → ConfigVariables α → String)
    (cv : ConfigVariables α) (templates : List TemplateInput)
    (f1 f2 : String → List String)
    (hperm : ∀ t, (f1 t).Perm (f2 t)) (hnd : ∀ t, (f1 t).Nodup) :
    checkDetailsRun f1 renderValue cv templates =
      checkDetailsRun f1 renderValue cv templates ∧
    (checkDetailsRun f1 renderValue cv templates = none ↔
     checkDetailsRun f2 renderValue cv templates = none) ∧
    (∀ o1 o2, checkDetailsRun f1 renderValue cv templates = some o1 →
      checkDetailsRun f2 renderValue cv templates = some o2 →
      OutputEquiv o1 o2) := by
  refine ⟨rfl, ?_, ?_⟩
  · rcases checkDetailsRun_congr f1 f2 hperm hnd renderValue templates cv with
      ⟨e1, e2⟩ | ⟨o1, o2, e1, e2, _⟩
    · simp [e1, e2]
    · simp [e1, e2]
  · intro o1 o2 h1 h2
    rcases checkDetailsRun_congr f1 f2 hperm hnd renderValue templates cv with
      ⟨e1, e2⟩ | ⟨o3, o4, e1, e2, ho⟩
    · rw [h1] at e1
      exact Option.noConfusion e1
    · rw [h1] at e1
      rw [h2] at e2
      obtain rfl : o3 = o1 := by simpa using e1.symm
      obtain rfl : o4 = o2 := by simpa using e2.symm
      exact ho

/-- Witness for C8 at a one-template input with no undeclared names. -/
theorem c8_extraction_deterministic_witness :
    checkDetailsRun (fun _ => []) (fun _ _ => "")
        (fun _ => (none : Option Nat))
        [⟨"ping.yaml.j2", some "ping", ⟨[("alarm", "(OK)")], [], none⟩⟩] =
      checkDetailsRun (fun _ => []) (fun _ _ => "")
        (fun _ => (none : Option Nat))
        [⟨"ping.yaml.j2", some "ping", ⟨[("alarm", "(OK)")], [], none⟩⟩] ∧
    (checkDetailsRun (fun _ => []) (fun _ _ => "")
        (fun _ => (none : Option Nat))
        [⟨"ping.yaml.j2", some "ping", ⟨[("alarm", "(OK)")], [], none⟩⟩] = none ↔
     checkDetailsRun (fun _ => []) (fun _ _ => "")
        (fun _ => (none : Option Nat))
        [⟨"ping.yaml.j2", some "ping", ⟨[("alarm", "(OK)")], [], none⟩⟩] = none) ∧
    (∀ o1 o2,
      checkDetailsRun (fun _ => []) (fun _ _ => "")
          (fun _ => (none : Option Nat))
          [⟨"ping.yaml.j2", some "ping", ⟨[("alarm", "(OK)")], [], none⟩⟩] = some o1 →
      checkDetailsRun (fun _ => []) (fun _ _ => "")
          (fun _ => (none : Option Nat))
          [⟨"ping.yaml.j2", some "ping", ⟨[("alarm", "(OK)")], [], none⟩⟩] = some o2 →
      OutputEquiv o1 o2) :=
  c8_extraction_deterministic (fun _ _ => "") (fun _ => (none : Option Nat))
    [⟨"ping.yaml.j2", some "ping", ⟨[("alarm", "(OK)")], [], none⟩⟩]
    (fun _ => []) (fun _ => [])
    (fun _ => List.Perm.refl []) (fun _ => List.nodup_nil)

end MaasChecksUtil
